import Mathlib

/-!
Verification development for the RAPPOR client encoder
(`src/client/proto/rappor.cc` and `src/client/proto/libc_rand.cc`).

The C++ code is shallowly embedded: machine integers become `Nat`/`Int` with
explicit reduction modulo a power of two where the C++ type would wrap, the
`uint64_t ByteVector` typedef becomes `Nat` values kept below `2 ^ 64`, and the
stateful randomness interfaces become explicit state-passing records.
-/

namespace Rappor

/-- Truncation to the 64-bit `ByteVector` typedef (`uint64_t`). -/
def toU64 (n : Nat) : Nat := n % 2 ^ 64

/-- Bitwise complement `~` on a `uint64_t` value. -/
def not64 (n : Nat) : Nat := (2 ^ 64 - 1) ^^^ (n % 2 ^ 64)

/-- Wrap of an integer to a 32-bit signed `int` (two-complement). -/
def toInt32 (n : Int) : Int := (n + 2 ^ 31) % 2 ^ 32 - 2 ^ 31

/-- Conversion of a signed `int` value to `unsigned int` (reduction mod `2 ^ 32`). -/
def toUInt32n (n : Int) : Nat := (n % 2 ^ 32).toNat

/-- Value of a byte read through `char` (signed on the reference platform):
bytes at and above 128 appear as negative values. -/
def charVal (b : Nat) : Int :=
  if b % 256 < 128 then ((b % 256 : Nat) : Int) else ((b % 256 : Nat) : Int) - 256

/-- The `Params` accessors used by `rappor.cc`: `num_bits()` and `num_hashes()`.
The noise probabilities live inside the randomness implementations and are not
read by the encoder itself. -/
structure Params where
  num_bits : Nat
  num_hashes : Nat

/-- `DeterministicRandInterface`: a seedable randomness capability with state
type `σ`.  `seed` re-initializes the state from a byte string; `f_bits` and
`uniform` each return a bit pattern and the successor state. -/
structure DeterministicRandInterface (σ : Type) where
  seed : List Nat → σ → σ
  f_bits : σ → Nat × σ
  uniform : σ → Nat × σ

/-- `RandInterface`: the per-report noise capability with state type `τ`,
offering the `p_bits` and `q_bits` draws. -/
structure RandInterface (τ : Type) where
  p_bits : τ → Nat × τ
  q_bits : τ → Nat × τ

/-- The members of the variant-A `Encoder` (`cohort_`, `params_`, `rand_`,
`det_rand_`, `num_bytes_`, `is_valid_`); `metric_name` is a constructor
argument that is not stored. -/
structure Encoder (σ τ : Type) where
  cohort : Int
  params : Params
  rand : RandInterface τ
  det_rand : DeterministicRandInterface σ
  num_bytes : Nat
  is_valid : Bool

/-- The `Encoder` constructor: `num_bytes_` starts at 0 and `is_valid_` at
true; when `num_bits` is a multiple of 8, `num_bytes_` becomes `num_bits / 8`,
otherwise `is_valid_` is cleared. -/
def mkEncoder {σ τ : Type} (metric_name : List Nat) (cohort : Int) (params : Params)
    (det_rand : DeterministicRandInterface σ) (rand : RandInterface τ) : Encoder σ τ :=
  ⟨cohort, params, rand, det_rand,
    if params.num_bits % 8 = 0 then params.num_bits / 8 else 0,
    if params.num_bits % 8 = 0 then true else false⟩

/-- The rolling hash of `Encoder::Encode`: `int h = 5381;` then
`h = (h << 5) + h + value[j];` over the bytes of the value, in wrapping
32-bit signed `int` arithmetic.  The hash index `i` of the surrounding loop is
not an input (the loop body never mentions it; the source carries a TODO
about needing more than one hash function). -/
def hashA (value : List Nat) : Int :=
  value.foldl (fun h b => toInt32 (toInt32 (h * 32) + h + charVal b)) 5381

/-- `unsigned int bit_to_set = h % params_.num_bits();` — C++ `%` on `int` is
truncated modulo, and the result is converted to `unsigned int`. -/
def bitToSetA (value : List Nat) (num_bits : Nat) : Nat :=
  toUInt32n (Int.tmod (hashA value) (num_bits : Int))

/-- The hashing loop of `Encoder::Encode`: for each of `num_hashes` indices,
recompute the rolling hash of the value and set the selected bit with
`bloom |= 1 << bit_to_set;` (the embedding takes the mathematical shift,
truncated to the 64-bit `bloom` variable). -/
def bloomA (value : List Nat) (p : Params) : Nat :=
  (List.range p.num_hashes).foldl
    (fun bloom _i =>
      let bit_to_set := bitToSetA value p.num_bits
      toU64 (bloom ||| (1 <<< bit_to_set)))
    0

/-- The local values computed by one call of `Encoder::Encode`, together with
the final states of the two randomness capabilities and the content of the
`output` string after the call. -/
structure EncodeResult (σ τ : Type) where
  bloom : Nat
  f_bits : Nat
  uniform : Nat
  prr : Nat
  p_bits : Nat
  q_bits : Nat
  irr : Nat
  output : List Nat
  detState : σ
  randState : τ

/-- `Encoder::Encode`, line by line.  `out0` is the content of the caller
string `*output` before the call.

The serialization loop in the source is
`for (i = 0; i < num_bytes_; ++i) { output[i] = irr & 0xFF; irr >>= 8; }`
where `output` is a `std::string*`: `output[i]` indexes the POINTER, not the
characters, so iteration 0 assigns the one-character string
`std::string(1, char(irr & 0xFF))` to `*output` through
`std::string::operator=(char)`, and every iteration with `i >= 1` writes to an
out-of-bounds `std::string` object (undefined behavior that cannot change
`*output` in any defined execution).  The embedding keeps the defined part:
with `num_bytes_ = 0` the loop body never runs and `*output` is unchanged;
otherwise `*output` ends as the single low byte of `irr`.  Note also that
`Encode` never consults `is_valid_`, and that the C++ function is declared to
return `bool` but has no return statement. -/
def Encoder.Encode {σ τ : Type} (e : Encoder σ τ) (value : List Nat) (s : σ) (t : τ)
    (out0 : List Nat) : EncodeResult σ τ :=
  let bloom := bloomA value e.params
  -- Seed it every time, for deterministic PRR (comment in the source).
  let s1 := e.det_rand.seed value s
  let f_bits := toU64 (e.det_rand.f_bits s1).1
  let s2 := (e.det_rand.f_bits s1).2
  let uniform := toU64 (e.det_rand.uniform s2).1
  let s3 := (e.det_rand.uniform s2).2
  let prr := (f_bits &&& uniform) ||| (bloom &&& not64 uniform)
  let p_bits := toU64 (e.rand.p_bits t).1
  let t1 := (e.rand.p_bits t).2
  let q_bits := toU64 (e.rand.q_bits t1).1
  let t2 := (e.rand.q_bits t1).2
  let irr := (p_bits &&& not64 prr) ||| (q_bits &&& prr)
  let output := if e.num_bytes = 0 then out0 else [irr &&& 255]
  ⟨bloom, f_bits, uniform, prr, p_bits, q_bits, irr, output, s3, t2⟩

/-- `HashPartWidth`: the number of bits one hash slice contributes, i.e.
log2 of the bloom filter width, with `-1` signalling an unsupported width. -/
def HashPartWidth (bloom_width : Int) : Int :=
  if bloom_width = 8 then 3
  else if bloom_width = 16 then 4
  else if bloom_width = 32 then 5
  else if bloom_width = 64 then 6
  else if bloom_width = 128 then 7
  else -1

/-- The members of the variant-B `Encoder2`.  `md5_func_` maps a byte string
to a 16-byte digest; `hmac_func_` is stored but never called by `Encode`;
`irr_rand_` is stored but never called by `Encode` (the header declaring
`IrrRandInterface` is not part of the sources, and the only uses of a noise
capability in `Encoder2::Encode` sit inside a block comment). -/
structure Encoder2 where
  cohort : Int
  params : Params
  md5_func : List Nat → List Nat
  hmac_func : List Nat → List Nat → List Nat
  irr_rand : RandInterface Unit
  num_bytes : Nat
  is_valid : Bool
  hash_part_width : Int

/-- The `Encoder2` constructor: it stores `HashPartWidth(params.num_bits())`
in `hash_part_width_`, then clears `is_valid_` ONLY when `num_bits` is not a
multiple of 8 — the stored hash width is never examined, so an unsupported
width such as 24 (where `HashPartWidth` returns -1) still yields a valid
encoder. -/
def mkEncoder2 (metric_name : List Nat) (cohort : Int) (params : Params)
    (md5_func : List Nat → List Nat) (hmac_func : List Nat → List Nat → List Nat)
    (irr_rand : RandInterface Unit) : Encoder2 :=
  ⟨cohort, params, md5_func, hmac_func, irr_rand,
    if params.num_bits % 8 = 0 then params.num_bits / 8 else 0,
    if params.num_bits % 8 = 0 then true else false,
    HashPartWidth (params.num_bits : Int)⟩

/-- The hashing loop of `Encoder2::Encode`.  `hash` is the 16-bit value
`md5[0] | md5[1] << 8` built from the first two digest bytes.  Each iteration
sets bit `hash % num_bits`.  The next source statement is
`hash >> hash_part_width_;` WITHOUT an assignment: its result is discarded, so
`hash` is identical in every iteration and each index sets the same bit. -/
def bloomB (hash : Nat) (num_bits : Nat) (hash_part_width : Int) (num_hashes : Nat) : Nat :=
  (List.range num_hashes).foldl
    (fun bloom _i =>
      let bit_to_set := hash % num_bits
      let bloom2 := toU64 (bloom ||| (1 <<< bit_to_set))
      -- `hash >> hash_part_width_;` — result discarded in the source
      let _discarded := hash >>> (hash_part_width.toNat)
      bloom2)
    0

/-- `Encoder2::Encode`: computes the digest of the value, derives the 16-bit
`hash` from its first two bytes, and runs the hashing loop.  Everything after
the loop — the PRR, the IRR, and the serialization into `output` — is
enclosed in a `/* ... */` block comment in the source (and that disabled text
even refers to `det_rand_` and `rand_`, members `Encoder2` does not have), so
the call leaves `*output` unchanged, never touches `irr_rand_`, and falls off
the end of a `bool` function without a return statement.  The embedding
returns the computed bloom value and the (unchanged) output content. -/
def Encoder2.Encode (e : Encoder2) (value : List Nat) (out0 : List Nat) : Nat × List Nat :=
  let md5 := e.md5_func value
  let num_bits := e.params.num_bits
  let hash := (md5.getD 0 0 % 256) ||| ((md5.getD 1 0 % 256) <<< 8)
  let bloom := bloomB hash num_bits e.hash_part_width e.params.num_hashes
  (bloom, out0)

/-- `LibcRand::f_bits` from `libc_rand.cc`: returns 0 unconditionally. -/
def LibcRand.f_bits : Nat := 0

/-- `LibcRand::p_bits` from `libc_rand.cc`: returns 0 unconditionally. -/
def LibcRand.p_bits : Nat := 0

/-- `LibcRand::q_bits` from `libc_rand.cc`: returns 0 unconditionally. -/
def LibcRand.q_bits : Nat := 0

/-- A stateless per-report noise capability whose two draws are the constants
`p` and `q`. -/
def constRand (p q : Nat) : RandInterface Unit :=
  ⟨fun u => (p, u), fun u => (q, u)⟩

/-- A stateless deterministic capability whose draws are the constants
`f` and `u`. -/
def constDet (f u : Nat) : DeterministicRandInterface Unit :=
  ⟨fun _ st => st, fun st => (f, st), fun st => (u, st)⟩

/-- A deterministic capability over a counter state: every `seed`, `f_bits`
and `uniform` call increments the counter, so the counter measures how many
capability calls an encode performed. -/
def countDet : DeterministicRandInterface Nat :=
  ⟨fun _ s => s + 1, fun s => (0, s + 1), fun s => (0, s + 1)⟩

/-- A per-report noise capability over a counter state: every draw increments
the counter. -/
def countRand : RandInterface Nat :=
  ⟨fun t => (0, t + 1), fun t => (0, t + 1)⟩

/-- A fixed digest function for concrete evaluations: digest bytes
`01 02 00 ... 00`. -/
def md5c : List Nat → List Nat := fun _ => [1, 2] ++ List.replicate 14 0

/-- A trivial keyed-digest function for concrete evaluations. -/
def hmacc : List Nat → List Nat → List Nat := fun _ _ => []

/-- Following the words of claim C4: the rolling recurrence
`h = h * 33 + h + byte` seeded at 5381 (the source instead computes
`(h << 5) + h + byte`, i.e. `h * 33 + byte`). -/
def specRollingHash (value : List Nat) : Int :=
  value.foldl (fun h b => h * 33 + h + charVal b) 5381

/-- Following the words of claim C5: hash index `i` sets the bit at position
`(hash >> (i * hash_part_width)) % num_bits`, consecutive indices consuming
consecutive `hash_part_width`-bit slices of the digest value. -/
def specSlicedBloom (hash : Nat) (num_bits : Nat) (hash_part_width : Nat)
    (num_hashes : Nat) : Nat :=
  (List.range num_hashes).foldl
    (fun bloom i => bloom ||| (1 <<< ((hash >>> (i * hash_part_width)) % num_bits)))
    0

/-! ## Helper lemmas -/

lemma toU64_lt (x : Nat) : toU64 x < 2 ^ 64 :=
  Nat.mod_lt _ (by norm_num)

lemma not64_lt (x : Nat) : not64 x < 2 ^ 64 :=
  Nat.xor_lt_two_pow (by norm_num) (Nat.mod_lt _ (by norm_num))

lemma testBit_toU64 (x k : Nat) :
    (toU64 x).testBit k = (decide (k < 64) && x.testBit k) := by
  simp only [toU64, Nat.testBit_mod_two_pow]

lemma testBit_not64 (x k : Nat) :
    (not64 x).testBit k = (decide (k < 64) && !(x.testBit k)) := by
  simp only [not64, Nat.testBit_xor, Nat.testBit_two_pow_sub_one, Nat.testBit_mod_two_pow]
  cases h : decide (k < 64) <;> cases hx : x.testBit k <;> simp

lemma bloomA_lt (value : List Nat) (p : Params) : bloomA value p < 2 ^ 64 := by
  rcases p with ⟨nb, nh⟩
  cases nh with
  | zero => simp [bloomA]
  | succ n =>
      rw [bloomA]
      simp only [List.range_succ, List.foldl_append, List.foldl_cons, List.foldl_nil]
      exact toU64_lt _

lemma Encode_prr_lt {σ τ : Type} (e : Encoder σ τ) (value : List Nat) (s : σ) (t : τ)
    (out0 : List Nat) : (e.Encode value s t out0).prr < 2 ^ 64 :=
  Nat.or_lt_two_pow (Nat.and_lt_two_pow _ (toU64_lt _)) (Nat.and_lt_two_pow _ (not64_lt _))

lemma foldl_or_const (x n : Nat) :
    (List.range (n + 1)).foldl (fun bloom _i => toU64 (bloom ||| x)) 0 = toU64 x := by
  induction n with
  | zero =>
      rw [List.range_succ]
      simp only [List.range_zero, List.nil_append, List.foldl_cons, List.foldl_nil, Nat.zero_or]
  | succ m ih =>
      rw [List.range_succ, List.foldl_append, ih]
      simp only [List.foldl_cons, List.foldl_nil]
      apply Nat.eq_of_testBit_eq
      intro k
      simp only [toU64, Nat.testBit_mod_two_pow, Nat.testBit_or]
      cases h : decide (k < 64) <;> cases hx : x.testBit k <;> simp

lemma mux_testBit (f u b : Nat) (hb : b < 2 ^ 64) (k : Nat) :
    ((toU64 f &&& toU64 u) ||| (b &&& not64 (toU64 u))).testBit k =
      if (toU64 u).testBit k then (toU64 f).testBit k else b.testBit k := by
  by_cases hk : k < 64
  · simp only [Nat.testBit_or, Nat.testBit_and, testBit_toU64, testBit_not64, hk,
      decide_True, Bool.true_and]
    cases hu : u.testBit k <;> cases hf : f.testBit k <;> cases hbk : b.testBit k <;> simp
  · have hbk : b.testBit k = false :=
      Nat.testBit_lt_two_pow (lt_of_lt_of_le hb (Nat.pow_le_pow_right (by norm_num) (by omega)))
    simp [Nat.testBit_or, Nat.testBit_and, testBit_toU64, testBit_not64, hk, hbk]

lemma mux2_testBit (p q x : Nat) (hx : x < 2 ^ 64) (k : Nat) :
    ((toU64 p &&& not64 x) ||| (toU64 q &&& x)).testBit k =
      if x.testBit k then (toU64 q).testBit k else (toU64 p).testBit k := by
  by_cases hk : k < 64
  · simp only [Nat.testBit_or, Nat.testBit_and, testBit_toU64, testBit_not64, hk,
      decide_True, Bool.true_and]
    cases hxk : x.testBit k <;> cases hp : p.testBit k <;> cases hq : q.testBit k <;> simp
  · have hxk : x.testBit k = false :=
      Nat.testBit_lt_two_pow (lt_of_lt_of_le hx (Nat.pow_le_pow_right (by norm_num) (by omega)))
    simp [Nat.testBit_or, Nat.testBit_and, testBit_toU64, testBit_not64, hk, hxk]

lemma irr_pass_through (x : Nat) (hx : x < 2 ^ 64) :
    (toU64 0 &&& not64 x) ||| (toU64 (2 ^ 64 - 1) &&& x) = x := by
  have h1 : toU64 (2 ^ 64 - 1) = 2 ^ 64 - 1 := Nat.mod_eq_of_lt (by norm_num)
  have h0 : toU64 0 = 0 := rfl
  rw [h0, h1, Nat.zero_and, Nat.zero_or, Nat.and_comm]
  exact Nat.and_pow_two_sub_one_of_lt_two_pow hx

lemma irr_ones (x : Nat) :
    (toU64 (2 ^ 64 - 1) &&& not64 x) ||| (toU64 (2 ^ 64 - 1) &&& x) = 2 ^ 64 - 1 := by
  apply Nat.eq_of_testBit_eq
  intro k
  by_cases hk : k < 64
  · simp only [Nat.testBit_or, Nat.testBit_and, testBit_toU64, testBit_not64,
      Nat.testBit_two_pow_sub_one, hk, decide_True, Bool.true_and]
    cases hx : x.testBit k <;> simp
  · simp only [Nat.testBit_or, Nat.testBit_and, testBit_toU64, testBit_not64]
    rw [Nat.testBit_two_pow_sub_one]
    simp [hk]

lemma zero_and_or_zero (a b : Nat) : (toU64 0 &&& a) ||| (toU64 0 &&& b) = 0 := by
  simp [toU64]

/-! ## Claim theorems -/

/-- Claim C1: in variant A, after reseeding the deterministic capability with
the value, the permanent randomized response equals
`(f_bits & uniform) | (bloom & ~uniform)`, where `f_bits` and `uniform` are
the next two draws from that capability after the seeding; bitwise, if the
`uniform` bit is 1 the PRR bit is the `f_bits` bit, otherwise it is the
`bloom` bit. -/
theorem C1_prr_formula {σ τ : Type} (e : Encoder σ τ) (value : List Nat) (s : σ) (t : τ)
    (out0 : List Nat) :
    (e.Encode value s t out0).f_bits =
        toU64 (e.det_rand.f_bits (e.det_rand.seed value s)).1 ∧
    (e.Encode value s t out0).uniform =
        toU64 (e.det_rand.uniform (e.det_rand.f_bits (e.det_rand.seed value s)).2).1 ∧
    (e.Encode value s t out0).prr =
      ((e.Encode value s t out0).f_bits &&& (e.Encode value s t out0).uniform) |||
        (bloomA value e.params &&& not64 (e.Encode value s t out0).uniform) ∧
    ∀ k : Nat,
      (e.Encode value s t out0).prr.testBit k =
        if (e.Encode value s t out0).uniform.testBit k then
          (e.Encode value s t out0).f_bits.testBit k
        else (bloomA value e.params).testBit k := by
  refine ⟨rfl, rfl, rfl, ?_⟩
  intro k
  exact mux_testBit
    (e.det_rand.f_bits (e.det_rand.seed value s)).1
    (e.det_rand.uniform (e.det_rand.f_bits (e.det_rand.seed value s)).2).1
    (bloomA value e.params) (bloomA_lt value e.params) k

/-- Claim C2: in variant A, the instantaneous randomized response equals
`(p_bits & ~prr) | (q_bits & prr)` for the two fresh draws of the per-report
capability; bitwise, a PRR bit of 1 selects the `q_bits` bit and a PRR bit of
0 the `p_bits` bit.  With draws all-zeros and all-ones the IRR equals the PRR
exactly, and with both draws all-ones the IRR is all-ones regardless of the
PRR. -/
theorem C2_irr_formula {σ τ : Type} (e : Encoder σ τ) (value : List Nat) (s : σ) (t : τ)
    (out0 : List Nat) :
    (e.Encode value s t out0).p_bits = toU64 (e.rand.p_bits t).1 ∧
    (e.Encode value s t out0).q_bits = toU64 (e.rand.q_bits (e.rand.p_bits t).2).1 ∧
    (e.Encode value s t out0).irr =
      ((e.Encode value s t out0).p_bits &&& not64 (e.Encode value s t out0).prr) |||
        ((e.Encode value s t out0).q_bits &&& (e.Encode value s t out0).prr) ∧
    (∀ k : Nat,
      (e.Encode value s t out0).irr.testBit k =
        if (e.Encode value s t out0).prr.testBit k then
          (e.Encode value s t out0).q_bits.testBit k
        else (e.Encode value s t out0).p_bits.testBit k) ∧
    (∀ (σ2 : Type) (c : Int) (p2 : Params) (d : DeterministicRandInterface σ2)
        (nb : Nat) (v : Bool) (val : List Nat) (s2 : σ2) (o : List Nat),
      ((Encoder.mk c p2 (constRand 0 (2 ^ 64 - 1)) d nb v).Encode val s2 () o).irr =
        ((Encoder.mk c p2 (constRand 0 (2 ^ 64 - 1)) d nb v).Encode val s2 () o).prr) ∧
    (∀ (σ2 : Type) (c : Int) (p2 : Params) (d : DeterministicRandInterface σ2)
        (nb : Nat) (v : Bool) (val : List Nat) (s2 : σ2) (o : List Nat),
      ((Encoder.mk c p2 (constRand (2 ^ 64 - 1) (2 ^ 64 - 1)) d nb v).Encode val s2 () o).irr =
        2 ^ 64 - 1) := by
  refine ⟨rfl, rfl, rfl, ?_, ?_, ?_⟩
  · intro k
    exact mux2_testBit (e.rand.p_bits t).1 (e.rand.q_bits (e.rand.p_bits t).2).1
      (e.Encode value s t out0).prr (Encode_prr_lt e value s t out0) k
  · intro σ2 c p2 d nb v val s2 o
    exact irr_pass_through
      ((Encoder.mk c p2 (constRand 0 (2 ^ 64 - 1)) d nb v).Encode val s2 () o).prr
      (Encode_prr_lt _ val s2 () o)
  · intro σ2 c p2 d nb v val s2 o
    exact irr_ones
      ((Encoder.mk c p2 (constRand (2 ^ 64 - 1) (2 ^ 64 - 1)) d nb v).Encode val s2 () o).prr

/-- Claim C3 (code divergence): constructing the variant-B encoder with
`num_bits = 24` — a width for which `HashPartWidth` returns the unsupported
marker -1 — still yields `is_valid_ = true`, because the constructor stores
the lookup result in `hash_part_width_` but never examines it and only checks
divisibility by 8. -/
theorem C3_width24_still_valid :
    (mkEncoder2 [] 0 ⟨24, 2⟩ md5c hmacc (constRand 0 0)).is_valid = true ∧
    (mkEncoder2 [] 0 ⟨24, 2⟩ md5c hmacc (constRand 0 0)).hash_part_width = -1 ∧
    HashPartWidth 24 = -1 :=
  ⟨rfl, rfl, rfl⟩

/-- Claim C4 (counterexample): for the value consisting of the single byte
120 and `num_bits = 8`, the source hash is `33 * 5381 + 120 = 177693` and the
encoder sets bit `177693 % 8 = 5`, while the recurrence written in the claim,
`h = h * 33 + h + byte`, gives `34 * 5381 + 120 = 183074` and would select bit
`183074 % 8 = 2`; moreover with two hash indices the encoder still sets only
that one bit, because the hash never incorporates the hash index. -/
theorem C4_counterexample :
    bitToSetA [120] 8 = 5 ∧
    specRollingHash [120] = 183074 ∧
    specRollingHash [120] % 8 = 2 ∧
    bloomA [120] ⟨8, 1⟩ = 2 ^ 5 ∧
    bloomA [120] ⟨8, 2⟩ = 2 ^ 5 ∧
    (5 : Nat) ≠ 2 :=
  ⟨rfl, rfl, rfl, rfl, rfl, by decide⟩

/-- Claim C4 (amended): for every value and parameter set with at least one
hash index, the variant-A hash stage sets exactly the single bit at position
`h % num_bits` where `h` is the rolling hash `h = (h << 5) + h + byte`
(that is, `h * 33 + byte`) of the value alone, seeded at 5381, in wrapping
32-bit `int` arithmetic; the hash index is not incorporated, so every index
sets that same bit. -/
theorem C4_amended_hash (value : List Nat) (p : Params) (h : 1 ≤ p.num_hashes) :
    bloomA value p = toU64 (1 <<< bitToSetA value p.num_bits) := by
  rcases p with ⟨nb, nh⟩
  have h2 : 1 ≤ nh := h
  obtain ⟨n, rfl⟩ : ∃ n, nh = n + 1 := ⟨nh - 1, by omega⟩
  exact foldl_or_const (1 <<< bitToSetA value nb) n

/-- Witness for the amended claim C4 at the concrete value `[120]`,
`num_bits = 8`, `num_hashes = 2`. -/
theorem C4_amended_hash_witness :
    1 ≤ (Params.mk 8 2).num_hashes ∧
    bloomA [120] ⟨8, 2⟩ = toU64 (1 <<< bitToSetA [120] 8) :=
  ⟨by decide, C4_amended_hash [120] ⟨8, 2⟩ (by decide)⟩

/-- Claim C5 (code divergence): with digest bytes `01 02 ...` the derived
hash value is 513; for `num_bits = 8` (slice width 3) and two hash indices the
source sets only bit `513 % 8 = 1`, because the statement
`hash >> hash_part_width_;` discards its result and the hash never advances,
while the sliced scheme of the claim would set bit 1 for index 0 and bit
`(513 >> 3) % 8 = 0` for index 1. -/
theorem C5_slice_shift_discarded :
    bloomB 513 8 3 2 = 2 ∧
    specSlicedBloom 513 8 3 2 = 3 ∧
    ((mkEncoder2 [] 0 ⟨8, 2⟩ md5c hmacc (constRand 0 0)).Encode [120] []).1 = 2 ∧
    (2 : Nat) ≠ 3 :=
  ⟨rfl, rfl, rfl, by decide⟩

/-- Claim C6 (code divergence): `Encoder2::Encode` performs only the hashing
stage.  The randomization and serialization stages sit inside a block comment
in the source, so the call leaves the output untouched (whether it starts
empty or not) and produces only the bloom value. -/
theorem C6_encode2_hash_only :
    (mkEncoder2 [] 0 ⟨8, 2⟩ md5c hmacc (constRand 0 0)).Encode [120] [] = (2, []) ∧
    (mkEncoder2 [] 0 ⟨8, 2⟩ md5c hmacc (constRand 0 0)).Encode [120] [7] = (2, [7]) :=
  ⟨rfl, rfl⟩

/-- Claim C7 (code divergence): for the valid 16-bit encoder, `num_bytes_` is
2 but the output after `Encode` holds a single byte: the serialization loop
writes through the string pointer (`output[i]`, not `(*output)[i]`), so the
only defined write replaces the whole output string with the single low byte
of the IRR. -/
theorem C7_output_single_byte :
    (mkEncoder [] 0 ⟨16, 2⟩ (constDet 0 0) (constRand 0 0)).is_valid = true ∧
    (mkEncoder [] 0 ⟨16, 2⟩ (constDet 0 0) (constRand 0 0)).num_bytes = 2 ∧
    ((mkEncoder [] 0 ⟨16, 2⟩ (constDet 0 0) (constRand 0 0)).Encode
        [120] () () []).output.length = 1 ∧
    (1 : Nat) ≠ 2 :=
  ⟨rfl, rfl, rfl, by decide⟩

/-- Claim C8 (counterexample): the encoder built with `num_bits = 12` is
invalid, yet `Encode` still performs the hash stage (the bloom value is 512,
bit `177693 % 12 = 9`) and still consumes randomness — the counting
deterministic capability ends at state 3 (one `seed`, one `f_bits`, one
`uniform` call) and the counting per-report capability at state 2 — because
`Encode` never consults `is_valid_`.  Only the report stays empty, since
`num_bytes_` is 0. -/
theorem C8_counterexample :
    (mkEncoder [] 0 ⟨12, 1⟩ countDet countRand).is_valid = false ∧
    ((mkEncoder [] 0 ⟨12, 1⟩ countDet countRand).Encode [120] 0 0 []).bloom = 512 ∧
    ((mkEncoder [] 0 ⟨12, 1⟩ countDet countRand).Encode [120] 0 0 []).detState = 3 ∧
    ((mkEncoder [] 0 ⟨12, 1⟩ countDet countRand).Encode [120] 0 0 []).randState = 2 ∧
    (3 : Nat) ≠ 0 :=
  ⟨rfl, rfl, rfl, rfl, by decide⟩

/-- Claim C8 (amended): when the constructor has cleared the validity flag,
`Encode` still runs the hashing and randomization stages, but it appends no
report bytes: `num_bytes_` is 0, so the serialization loop never executes and
the output string is left exactly as the caller provided it. -/
theorem C8_amended_no_output {σ τ : Type} (metric_name : List Nat) (cohort : Int)
    (params : Params) (det : DeterministicRandInterface σ) (rand : RandInterface τ)
    (value : List Nat) (s : σ) (t : τ) (out0 : List Nat)
    (h : (mkEncoder metric_name cohort params det rand).is_valid = false) :
    ((mkEncoder metric_name cohort params det rand).Encode value s t out0).output = out0 := by
  by_cases h8 : params.num_bits % 8 = 0
  · exfalso
    have : (mkEncoder metric_name cohort params det rand).is_valid = true := by
      simp [mkEncoder, h8]
    rw [this] at h
    exact absurd h (by decide)
  · have hnb : (mkEncoder metric_name cohort params det rand).num_bytes = 0 := by
      simp [mkEncoder, h8]
    show (if (mkEncoder metric_name cohort params det rand).num_bytes = 0 then out0
      else _) = out0
    rw [hnb]
    simp

/-- Witness for the amended claim C8 at the concrete invalid width 12. -/
theorem C8_amended_no_output_witness :
    ((mkEncoder [] 0 ⟨12, 1⟩ countDet countRand).Encode [121] 0 0 [9]).output = [9] :=
  C8_amended_no_output [] 0 ⟨12, 1⟩ countDet countRand [121] 0 0 [9] rfl

/-- Claim C9: `HashPartWidth` is a pure total function mapping 8 to 3, 16 to
4, 32 to 5, 64 to 6 and 128 to 7, and returning the unsupported marker -1 on
every other input. -/
theorem C9_HashPartWidth_table :
    HashPartWidth 8 = 3 ∧ HashPartWidth 16 = 4 ∧ HashPartWidth 32 = 5 ∧
    HashPartWidth 64 = 6 ∧ HashPartWidth 128 = 7 ∧
    ∀ w : Int, w ≠ 8 → w ≠ 16 → w ≠ 32 → w ≠ 64 → w ≠ 128 → HashPartWidth w = -1 := by
  refine ⟨rfl, rfl, rfl, rfl, rfl, ?_⟩
  intro w h8 h16 h32 h64 h128
  simp [HashPartWidth, h8, h16, h32, h64, h128]

/-- Witness for claim C9 at the unsupported width 24. -/
theorem C9_HashPartWidth_table_witness : HashPartWidth 24 = -1 :=
  C9_HashPartWidth_table.2.2.2.2.2 24 (by decide) (by decide) (by decide) (by decide)
    (by decide)

/-- Claim C10: the libc-based capability returns the all-zero pattern from
`f_bits`, `p_bits` and `q_bits`; consequently a variant-A encoder drawing its
per-report noise from it (and its permanent noise from any deterministic
capability whose `f_bits` agrees with `LibcRand`) computes an all-zero IRR for
every value, every parameter set and every capability state. -/
theorem C10_libc_all_zero (σ : Type) (det : DeterministicRandInterface σ)
    (hf : ∀ st : σ, (det.f_bits st).1 = LibcRand.f_bits)
    (cohort : Int) (params : Params) (value : List Nat) (s : σ) (out0 : List Nat) :
    LibcRand.f_bits = 0 ∧ LibcRand.p_bits = 0 ∧ LibcRand.q_bits = 0 ∧
    ((mkEncoder [] cohort params det
        (constRand LibcRand.p_bits LibcRand.q_bits)).Encode value s () out0).irr = 0 := by
  refine ⟨rfl, rfl, rfl, ?_⟩
  exact zero_and_or_zero
    (not64 ((mkEncoder [] cohort params det
      (constRand LibcRand.p_bits LibcRand.q_bits)).Encode value s () out0).prr)
    ((mkEncoder [] cohort params det
      (constRand LibcRand.p_bits LibcRand.q_bits)).Encode value s () out0).prr

/-- Witness for claim C10 at a concrete deterministic capability and value. -/
theorem C10_libc_all_zero_witness :
    ((mkEncoder [] 0 ⟨8, 2⟩ (constDet 0 0)
        (constRand LibcRand.p_bits LibcRand.q_bits)).Encode [120] () () []).irr = 0 :=
  (C10_libc_all_zero Unit (constDet 0 0) (fun _st => rfl) 0 ⟨8, 2⟩ [120] () []).2.2.2

end Rappor
